import Mathlib

/-!
Verification development for the swprepost surface-wave inversion
pre/post-processing library.  The repository snapshot ships only the example
notebooks, the README and the documentation stubs; the Python class
definitions themselves (Parameter, Parameterization, GroundModel,
GroundModelSuite, ModalTarget, TargetSet) are not part of the snapshot.
Every definition below is therefore modelled from the specification, with the
concrete printed outputs of the example notebooks used as ground truth to pin
down the numeric conventions.  All numbers are modelled as exact rationals.
-/

namespace Swprepost

/-- Modelled from the spec: the module-level constant naming the first
supported Geopsy engine version, printed by the test-data notebook as part of
`SUPPORTED_GEOPSY_VERSIONS: ['2.10.1', '3.4.2']`. -/
def ver2 : String := "2.10.1"

/-- Modelled from the spec: the module-level constant naming the second
supported Geopsy engine version. -/
def ver3 : String := "3.4.2"

/-- Modelled from the spec: `swprepost.meta.SUPPORTED_GEOPSY_VERSIONS`, the
module-level list of supported engine version strings, whose printed value in
`src/test/data/prepare_test_data.ipynb` is `['2.10.1', '3.4.2']`. -/
def SUPPORTED_GEOPSY_VERSIONS : List String := [ver2, ver3]

/-- Modelled from the spec: the layering-scheme tag of a `Parameter`,
`lay_type ∈ {FX, FTL, LN, LR, CT}`. -/
inductive LayType where
  | FX
  | FTL
  | LN
  | LR
  | CT
deriving DecidableEq

/-- Modelled from the spec: a `Parameter` holds per-layer depth/thickness
bounds, per-layer value bounds, per-layer reversal flags and a layering tag.
The Python class `swprepost.Parameter` is absent from the snapshot. -/
structure Parameter where
  lay_min : List ℚ
  lay_max : List ℚ
  par_min : List ℚ
  par_max : List ℚ
  par_rev : List Bool
  lay_type : LayType
deriving DecidableEq

/-- Each left entry is at most the matching right entry. -/
def pairwiseLE (xs ys : List ℚ) : Prop :=
  ∀ p ∈ xs.zip ys, p.1 ≤ p.2

instance (xs ys : List ℚ) : Decidable (pairwiseLE xs ys) :=
  inferInstanceAs (Decidable (∀ p ∈ xs.zip ys, p.1 ≤ p.2))

/-- Modelled from the spec: the length part of the `Parameter` invariant, all
five per-layer sequences have the same number of entries. -/
def Parameter.wfLen (p : Parameter) : Prop :=
  p.lay_max.length = p.lay_min.length ∧ p.par_min.length = p.lay_min.length ∧
    p.par_max.length = p.lay_min.length ∧ p.par_rev.length = p.lay_min.length

instance (p : Parameter) : Decidable p.wfLen := by
  unfold Parameter.wfLen; infer_instance

/-- Modelled from the spec: the full `Parameter` invariant, equal lengths plus
`lay_min[i] ≤ lay_max[i]` and `par_min[i] ≤ par_max[i]` for every layer. -/
def Parameter.wf (p : Parameter) : Prop :=
  p.wfLen ∧ pairwiseLE p.lay_min p.lay_max ∧ pairwiseLE p.par_min p.par_max

instance (p : Parameter) : Decidable p.wf := by
  unfold Parameter.wf; infer_instance

/-- Modelled from the spec: `Parameter.from_fx(value)`, a single fixed-value
layer with `par_min = par_max = value`, an implementation-defined half-space
depth placeholder (printed by the Parameterizations notebook as
`lay_min=[1824], lay_max=[1883]`), failing unless the value is positive. -/
def Parameter.from_fx (value : ℚ) : Option Parameter :=
  if 0 < value then
    some ⟨[1824], [1883], [value], [value], [false], LayType.FX⟩
  else none

/-- Modelled from the spec: `Parameter.from_ftl(nlayers, thickness, ...)`,
`nlayers` layers of exactly `thickness` each, failing if `nlayers < 1`,
`thickness ≤ 0` or the value bounds are inverted. -/
def Parameter.from_ftl (nlayers : ℕ) (thickness par_min par_max : ℚ)
    (par_rev : Bool) : Option Parameter :=
  if 1 ≤ nlayers ∧ 0 < thickness ∧ par_min ≤ par_max then
    some ⟨List.replicate nlayers thickness, List.replicate nlayers thickness,
      List.replicate nlayers par_min, List.replicate nlayers par_max,
      List.replicate nlayers par_rev, LayType.FTL⟩
  else none

/-- Modelled from the spec: `Parameter.from_ln(wmin, wmax, nlayers, ...)`,
layering by number.  Every layer gets the bound pair
`[wmin / 3, wmax / depth_factor]` (the Parameterizations notebook prints
`lay_min=[0.666...]*n, lay_max=[50.0]*n` for `wmin=2, wmax=100`), so the
first layer's minimum thickness is `wmin / 3` and the deepest layer's maximum
bottom depth is `wmax / depth_factor`.  Fails on `nlayers < 1`, inverted
wavelength, value or layer bounds, or a non-positive depth factor. -/
def Parameter.from_ln (wmin wmax : ℚ) (nlayers : ℕ) (par_min par_max : ℚ)
    (par_rev : Bool) (depth_factor : ℚ) : Option Parameter :=
  if 0 < wmin ∧ wmin < wmax ∧ 1 ≤ nlayers ∧ par_min ≤ par_max ∧
      0 < depth_factor ∧ wmin / 3 ≤ wmax / depth_factor then
    some ⟨List.replicate nlayers (wmin / 3),
      List.replicate nlayers (wmax / depth_factor),
      List.replicate nlayers par_min, List.replicate nlayers par_max,
      List.replicate nlayers par_rev, LayType.LN⟩
  else none

/-- Modelled from the spec: the geometric depth generation of the layering
ratio scheme.  Starting from the first maximum depth `c = wmin / 2`, each
following candidate is `c * lr + c0` with `c0 = wmin / 2`; generation stops
once the next candidate would exceed `dmax`.  The fuel argument bounds the
recursion and is chosen large enough by the caller. -/
def lrDepths (lr c0 dmax : ℚ) : ℕ → ℚ → List ℚ
  | 0, c => [c]
  | n + 1, c =>
    if c * lr + c0 ≤ dmax then c :: lrDepths lr c0 dmax n (c * lr + c0)
    else [c]

/-- Fuel sufficient for `lrDepths`: each step advances by at least `c0`. -/
def lrFuel (c0 dmax : ℚ) : ℕ := (⌈dmax / c0⌉).toNat + 1

/-- The geometric candidate depths of the layering-ratio scheme, started at
`wmin / 2` with enough fuel to reach `wmax / depth_factor`. -/
def lrGen (wmin wmax depth_factor lr : ℚ) : List ℚ :=
  lrDepths lr (wmin / 2) (wmax / depth_factor)
    (lrFuel (wmin / 2) (wmax / depth_factor)) (wmin / 2)

/-- The full boundary list of the layering-ratio scheme: the first minimum
depth `wmin / 3`, then the generated depths with the last candidate replaced
by `dmax`, then the half-space placeholder depths `dmax` and `dmax + 1`. -/
def lrBnds (wmin wmax depth_factor lr : ℚ) : List ℚ :=
  wmin / 3 :: ((lrGen wmin wmax depth_factor lr).dropLast ++
    [wmax / depth_factor, wmax / depth_factor + 1])

/-- Modelled from the spec: `Parameter.from_lr(wmin, wmax, lr, ...)`, the
layering ratio scheme.  The generated bottom depths are the `lrDepths`
candidates with the last one replaced by `dmax = wmax / depth_factor`, the
first layer has thickness bounds `[wmin / 3, wmin / 2]`, and a final
half-space placeholder layer `[dmax, dmax + 1]` is appended, matching the
printed notebook output
`lay_min=[0.666..., 1.0, 4.0, 13.0, 50.0], lay_max=[1.0, 4.0, 13.0, 50.0, 51.0]`
for `wmin=2, wmax=100, lr=3`.  Fails if `lr ≤ 1` or any bound is inverted. -/
def Parameter.from_lr (wmin wmax lr par_min par_max : ℚ) (par_rev : Bool)
    (depth_factor : ℚ) : Option Parameter :=
  if 0 < wmin ∧ wmin < wmax ∧ 1 < lr ∧ par_min ≤ par_max ∧
      0 < depth_factor ∧ wmin / 2 ≤ wmax / depth_factor then
    some ⟨(lrBnds wmin wmax depth_factor lr).dropLast,
      (lrBnds wmin wmax depth_factor lr).tail,
      List.replicate ((lrBnds wmin wmax depth_factor lr).length - 1) par_min,
      List.replicate ((lrBnds wmin wmax depth_factor lr).length - 1) par_max,
      List.replicate ((lrBnds wmin wmax depth_factor lr).length - 1) par_rev,
      LayType.LR⟩
  else none

/-- Modelled from the spec: `Parameter.from_parameter_and_link`, copying the
layer bounds of an existing parameter layer-for-layer while installing fresh
value bounds; fails if the existing parameter has no layers, the value bounds
are inverted, or the link type is unknown. -/
def Parameter.from_parameter_and_link (par_min par_max : ℚ) (par_rev : Bool)
    (existing : Parameter) (ptype : String) : Option Parameter :=
  if 1 ≤ existing.lay_min.length ∧ par_min ≤ par_max ∧
      ptype ∈ ["vp", "vs", "pr", "rh"] then
    some ⟨existing.lay_min, existing.lay_max,
      List.replicate existing.lay_min.length par_min,
      List.replicate existing.lay_min.length par_max,
      List.replicate existing.lay_min.length par_rev, existing.lay_type⟩
  else none

/-- Modelled from the spec: direct construction of a custom `Parameter`
validates the structural invariant and rejects the input otherwise (input
validation errors are raised immediately, never silently clamped). -/
def Parameter.create (lay_min lay_max par_min par_max : List ℚ)
    (par_rev : List Bool) (lay_type : LayType) : Option Parameter :=
  let p : Parameter := ⟨lay_min, lay_max, par_min, par_max, par_rev, lay_type⟩
  if p.wf then some p else none

/-- The layering-ratio generation reproduces the Parameterizations notebook
output for `wmin=2, wmax=100, lr=3, depth_factor=2`. -/
theorem from_lr_notebook_example :
    Parameter.from_lr 2 100 3 120 450 true 2 =
      some ⟨[2/3, 1, 4, 13, 50], [1, 4, 13, 50, 51], [120, 120, 120, 120, 120],
        [450, 450, 450, 450, 450], [true, true, true, true, true],
        LayType.LR⟩ := by
  norm_num [Parameter.from_lr, lrBnds, lrGen, lrDepths, lrFuel, List.replicate]

/-- The second notebook layering-ratio example, `wmin=2, wmax=20, lr=2`. -/
theorem from_lr_notebook_example2 :
    Parameter.from_lr 2 20 2 100 350 false 2 =
      some ⟨[2/3, 1, 3, 10], [1, 3, 10, 11], [100, 100, 100, 100],
        [350, 350, 350, 350], [false, false, false, false],
        LayType.LR⟩ := by
  norm_num [Parameter.from_lr, lrBnds, lrGen, lrDepths, lrFuel, List.replicate]

/-- The layering-by-number model reproduces the notebook output for
`wmin=2, wmax=100, nlayers=3`. -/
theorem from_ln_notebook_example :
    Parameter.from_ln 2 100 3 120 450 true 2 =
      some ⟨[2/3, 2/3, 2/3], [50, 50, 50], [120, 120, 120], [450, 450, 450],
        [true, true, true], LayType.LN⟩ := by
  norm_num [Parameter.from_ln, List.replicate]

/-- A single step of the geometric generation: the recursion keeps the
current depth and advances while the next candidate stays within `dmax`. -/
theorem lrDepths_head (lr c0 dmax : ℚ) :
    ∀ (n : ℕ) (c : ℚ), (lrDepths lr c0 dmax n c).head? = some c := by
  intro n c
  cases n with
  | zero => simp [lrDepths]
  | succ n =>
    rw [lrDepths]
    split <;> simp

/-- The geometric generation is sorted and every produced depth lies between
the starting depth and `dmax`. -/
theorem lrDepths_bounds (lr c0 dmax : ℚ) (hc0 : 0 < c0) (hlr : 1 < lr) :
    ∀ (n : ℕ) (c : ℚ), 0 ≤ c → c ≤ dmax →
      List.Chain' (· ≤ ·) (lrDepths lr c0 dmax n c) ∧
        ∀ x ∈ lrDepths lr c0 dmax n c, c ≤ x ∧ x ≤ dmax := by
  intro n
  induction n with
  | zero =>
    intro c hc hcd
    refine ⟨by simp [lrDepths], ?_⟩
    intro x hx
    simp only [lrDepths, List.mem_singleton] at hx
    subst hx
    exact ⟨le_refl x, hcd⟩
  | succ n ih =>
    intro c hc hcd
    by_cases hg : c * lr + c0 ≤ dmax
    · have hstep : c ≤ c * lr + c0 := by nlinarith
      have hpos : 0 ≤ c * lr + c0 := by nlinarith
      obtain ⟨hchain, hmem⟩ := ih (c * lr + c0) hpos hg
      rw [lrDepths, if_pos hg]
      constructor
      · refine List.chain'_cons'.mpr ⟨?_, hchain⟩
        intro y hy
        exact le_trans hstep (hmem y (List.mem_of_mem_head? hy)).1
      · intro x hx
        rcases List.mem_cons.mp hx with h | h
        · subst h
          exact ⟨le_refl x, hcd⟩
        · exact ⟨le_trans hstep (hmem x h).1, (hmem x h).2⟩
    · rw [lrDepths, if_neg hg]
      refine ⟨by simp, ?_⟩
      intro x hx
      simp only [List.mem_singleton] at hx
      subst hx
      exact ⟨le_refl x, hcd⟩

/-- A sorted list compared against its own one-step shift: consecutive
entries are ordered pairwise. -/
theorem chain'_pairwiseLE (l : List ℚ) (h : List.Chain' (· ≤ ·) l) :
    pairwiseLE l.dropLast l.tail := by
  induction l with
  | nil => intro p hp; simp at hp
  | cons a t ih =>
    cases t with
    | nil => intro p hp; simp at hp
    | cons b t2 =>
      obtain ⟨hab, htail⟩ := List.chain'_cons.mp h
      intro p hp
      rw [show (a :: b :: t2).dropLast = a :: (b :: t2).dropLast from rfl,
        List.tail_cons, List.zip_cons_cons, List.mem_cons] at hp
      rcases hp with h1 | h1
      · rw [h1]; exact hab
      · exact ih htail p (by rwa [List.tail_cons])

/-- Replicated lists are pairwise ordered when the two values are. -/
theorem pairwiseLE_replicate (n : ℕ) (a b : ℚ) (h : a ≤ b) :
    pairwiseLE (List.replicate n a) (List.replicate n b) := by
  induction n with
  | zero => intro p hp; simp at hp
  | succ n ih =>
    intro p hp
    rw [List.replicate_succ, List.replicate_succ, List.zip_cons_cons,
      List.mem_cons] at hp
    rcases hp with h1 | h1
    · rw [h1]; exact h
    · exact ih p h1

/-- The head of a nonempty replicated list. -/
theorem replicate_head? (n : ℕ) (a : ℚ) (h : 1 ≤ n) :
    (List.replicate n a).head? = some a := by
  cases n with
  | zero => omega
  | succ n => simp [List.replicate_succ]

/-- The last entry of a nonempty replicated list. -/
theorem replicate_getLast? (n : ℕ) (a : ℚ) (h : 1 ≤ n) :
    (List.replicate n a).getLast? = some a := by
  induction n with
  | zero => omega
  | succ n ih =>
    cases n with
    | zero => simp
    | succ m =>
      rw [List.replicate_succ, List.getLast?_cons, ih (by omega)]
      simp

/-- A replicated list is a (weakly) sorted chain. -/
theorem chain'_replicate_le (n : ℕ) (a : ℚ) :
    List.Chain' (· ≤ ·) (List.replicate n a) := by
  induction n with
  | zero => simp
  | succ n ih =>
    rw [List.replicate_succ]
    refine List.chain'_cons'.mpr ⟨?_, ih⟩
    intro y hy
    have := List.mem_of_mem_head? hy
    rw [List.eq_of_mem_replicate this]

/-- The assembled layering-ratio bound list is a sorted chain. -/
theorem lrBnds_chain (lr c0 m0 dmax : ℚ) (n : ℕ) (hc0 : 0 < c0) (hm : m0 ≤ c0)
    (hlr : 1 < lr) (hcap : c0 ≤ dmax) :
    List.Chain' (· ≤ ·)
      (m0 :: ((lrDepths lr c0 dmax n c0).dropLast ++ [dmax, dmax + 1])) := by
  obtain ⟨hchain, hmem⟩ :=
    lrDepths_bounds lr c0 dmax hc0 hlr n c0 (le_of_lt hc0) hcap
  have hmem' : ∀ x ∈ (lrDepths lr c0 dmax n c0).dropLast, c0 ≤ x ∧ x ≤ dmax :=
    fun x hx => hmem x (List.mem_of_mem_dropLast hx)
  have happ : List.Chain' (· ≤ ·)
      ((lrDepths lr c0 dmax n c0).dropLast ++ [dmax, dmax + 1]) := by
    refine List.Chain'.append hchain.init ?_ ?_
    · exact List.chain'_pair.mpr (by linarith)
    · intro x hx y hy
      have hx' := (hmem' x (List.mem_of_mem_getLast? hx)).2
      have : dmax = y := by simpa using hy
      rw [← this]; exact hx'
  refine List.chain'_cons'.mpr ⟨?_, happ⟩
  intro y hy
  have hy' := List.mem_of_mem_head? hy
  rcases List.mem_append.mp hy' with h1 | h1
  · exact le_trans hm (hmem' y h1).1
  · rcases List.mem_cons.mp h1 with h2 | h2
    · rw [h2]; exact le_trans hm hcap
    · have : y = dmax + 1 := by simpa using h2
      rw [this]; linarith [le_trans hm hcap]

/-- Every depth generated by the layering-ratio recursion stays within
`dmax` once the start does. -/
theorem lrDepths_le_dmax (lr c0 dmax : ℚ) (n : ℕ) (hc0 : 0 < c0)
    (hlr : 1 < lr) (hcap : c0 ≤ dmax) :
    ∀ x ∈ lrDepths lr c0 dmax n c0, x ≤ dmax :=
  fun x hx =>
    ((lrDepths_bounds lr c0 dmax hc0 hlr n c0 (le_of_lt hc0) hcap).2 x hx).2

/-- Splitting the trailing half-space placeholder off the boundary list. -/
theorem lrBnds_split (wmin wmax depth_factor lr : ℚ) :
    lrBnds wmin wmax depth_factor lr =
      (wmin / 3 :: ((lrGen wmin wmax depth_factor lr).dropLast ++
        [wmax / depth_factor])) ++ [wmax / depth_factor + 1] := by
  simp [lrBnds]

/-- C2.  For every call `Parameter.from_lr(wmin, wmax, lr, par_min, par_max,
par_rev, depth_factor)` with `lr > 1` (and the remaining inputs valid), layer
generation starts from the minimum first-layer thickness `wmin / 3`, every
generated layer's maximum depth stays within `wmax / depth_factor`, and the
last generated layer's maximum depth (the final `lay_max` entry before the
appended half-space placeholder) equals exactly `wmax / depth_factor`; the
call fails when `lr ≤ 1`. -/
theorem spec_c2 :
    (∀ (wmin wmax lr par_min par_max : ℚ) (par_rev : Bool) (depth_factor : ℚ),
      0 < wmin → wmin < wmax → 1 < lr → par_min ≤ par_max →
      0 < depth_factor → wmin / 2 ≤ wmax / depth_factor →
      ∀ p, Parameter.from_lr wmin wmax lr par_min par_max par_rev
          depth_factor = some p →
        p.lay_min.head? = some (wmin / 3) ∧
        (∀ d ∈ p.lay_max.dropLast, d ≤ wmax / depth_factor) ∧
        p.lay_max.dropLast.getLast? = some (wmax / depth_factor)) ∧
    (∀ (wmin wmax lr par_min par_max : ℚ) (par_rev : Bool) (depth_factor : ℚ),
      lr ≤ 1 →
      Parameter.from_lr wmin wmax lr par_min par_max par_rev depth_factor =
        none) ∧
    (∀ (wmin wmax lr par_min par_max : ℚ) (par_rev : Bool) (depth_factor : ℚ),
      0 < wmin → wmin < wmax → 1 < lr → par_min ≤ par_max →
      0 < depth_factor → wmin / 2 ≤ wmax / depth_factor →
      (Parameter.from_lr wmin wmax lr par_min par_max par_rev
        depth_factor).isSome) := by
  refine ⟨?_, ?_, ?_⟩
  · intro wmin wmax lr par_min par_max par_rev depth_factor h1 h2 h3 h4 h5 h6
      p hp
    rw [Parameter.from_lr, if_pos ⟨h1, h2, h3, h4, h5, h6⟩] at hp
    injection hp with hp
    subst hp
    have hdrop : ((lrGen wmin wmax depth_factor lr).dropLast ++
        [wmax / depth_factor, wmax / depth_factor + 1]).dropLast =
        (lrGen wmin wmax depth_factor lr).dropLast ++ [wmax / depth_factor] := by
      rw [show (lrGen wmin wmax depth_factor lr).dropLast ++
          [wmax / depth_factor, wmax / depth_factor + 1] =
          ((lrGen wmin wmax depth_factor lr).dropLast ++
            [wmax / depth_factor]) ++ [wmax / depth_factor + 1] by simp,
        List.dropLast_concat]
    refine ⟨?_, ?_, ?_⟩
    · rw [lrBnds_split]
      rw [List.dropLast_concat]
      simp
    · intro d hd
      simp only [lrBnds, List.tail_cons] at hd
      rw [hdrop] at hd
      rcases List.mem_append.mp hd with h | h
      · exact lrDepths_le_dmax lr (wmin / 2) (wmax / depth_factor)
          (lrFuel (wmin / 2) (wmax / depth_factor)) (by linarith) h3 h6 d
          (List.mem_of_mem_dropLast h)
      · have : d = wmax / depth_factor := by simpa using h
        rw [this]
    · simp only [lrBnds, List.tail_cons]
      rw [hdrop, List.getLast?_concat]
  · intro wmin wmax lr par_min par_max par_rev depth_factor hle
    rw [Parameter.from_lr, if_neg]
    rintro ⟨-, -, h3, -⟩
    exact absurd h3 (not_lt.mpr hle)
  · intro wmin wmax lr par_min par_max par_rev depth_factor h1 h2 h3 h4 h5 h6
    rw [Parameter.from_lr, if_pos ⟨h1, h2, h3, h4, h5, h6⟩]
    rfl

/-- Closed witness for C2 at the notebook input `wmin=2, wmax=100, lr=3`. -/
theorem spec_c2_witness :
    ((Parameter.from_lr 2 100 3 120 450 true 2).isSome) ∧
      Parameter.from_lr 2 100 0.5 120 450 true 2 = none := by
  constructor
  · exact spec_c2.2.2 2 100 3 120 450 true 2 (by norm_num) (by norm_num)
      (by norm_num) (by norm_num) (by norm_num) (by norm_num)
  · exact spec_c2.2.1 2 100 0.5 120 450 true 2 (by norm_num)

/-- C3.  `Parameter.from_ln(wmin, wmax, nlayers, ...)` with `nlayers ≥ 1`
(and valid remaining inputs) produces exactly `nlayers` layers, the first
layer's minimum thickness is `wmin / 3`, the minimum thicknesses are
non-decreasing layer over layer, and the deepest layer's maximum bottom depth
is exactly `wmax / depth_factor`; the call fails when `nlayers < 1` or when
the computed minimum exceeds the computed maximum. -/
theorem spec_c3 :
    (∀ (wmin wmax : ℚ) (nlayers : ℕ) (par_min par_max : ℚ) (par_rev : Bool)
        (depth_factor : ℚ),
      0 < wmin → wmin < wmax → 1 ≤ nlayers → par_min ≤ par_max →
      0 < depth_factor → wmin / 3 ≤ wmax / depth_factor →
      ∀ p, Parameter.from_ln wmin wmax nlayers par_min par_max par_rev
          depth_factor = some p →
        p.lay_min.length = nlayers ∧ p.lay_max.length = nlayers ∧
        p.par_min.length = nlayers ∧ p.par_max.length = nlayers ∧
        p.par_rev.length = nlayers ∧
        p.lay_min.head? = some (wmin / 3) ∧
        List.Chain' (· ≤ ·) p.lay_min ∧
        p.lay_max.getLast? = some (wmax / depth_factor)) ∧
    (∀ (wmin wmax : ℚ) (par_min par_max : ℚ) (par_rev : Bool)
        (depth_factor : ℚ),
      Parameter.from_ln wmin wmax 0 par_min par_max par_rev depth_factor =
        none) ∧
    (∀ (wmin wmax : ℚ) (nlayers : ℕ) (par_min par_max : ℚ) (par_rev : Bool)
        (depth_factor : ℚ),
      wmax / depth_factor < wmin / 3 →
      Parameter.from_ln wmin wmax nlayers par_min par_max par_rev
        depth_factor = none) ∧
    (∀ (wmin wmax : ℚ) (nlayers : ℕ) (par_min par_max : ℚ) (par_rev : Bool)
        (depth_factor : ℚ),
      0 < wmin → wmin < wmax → 1 ≤ nlayers → par_min ≤ par_max →
      0 < depth_factor → wmin / 3 ≤ wmax / depth_factor →
      (Parameter.from_ln wmin wmax nlayers par_min par_max par_rev
        depth_factor).isSome) := by
  refine ⟨?_, ?_, ?_, ?_⟩
  · intro wmin wmax nlayers par_min par_max par_rev depth_factor h1 h2 h3 h4
      h5 h6 p hp
    rw [Parameter.from_ln, if_pos ⟨h1, h2, h3, h4, h5, h6⟩] at hp
    injection hp with hp
    subst hp
    refine ⟨by simp, by simp, by simp, by simp, by simp, ?_, ?_, ?_⟩
    · exact replicate_head? nlayers (wmin / 3) h3
    · exact chain'_replicate_le nlayers (wmin / 3)
    · exact replicate_getLast? nlayers (wmax / depth_factor) h3
  · intro wmin wmax par_min par_max par_rev depth_factor
    rw [Parameter.from_ln, if_neg]
    rintro ⟨-, -, h3, -⟩
    omega
  · intro wmin wmax nlayers par_min par_max par_rev depth_factor hlt
    rw [Parameter.from_ln, if_neg]
    rintro ⟨-, -, -, -, -, h6⟩
    exact absurd h6 (not_le.mpr hlt)
  · intro wmin wmax nlayers par_min par_max par_rev depth_factor h1 h2 h3 h4
      h5 h6
    rw [Parameter.from_ln, if_pos ⟨h1, h2, h3, h4, h5, h6⟩]
    rfl

/-- Closed witness for C3 at the notebook input `wmin=2, wmax=100,
nlayers=3` and at two failing inputs. -/
theorem spec_c3_witness :
    (Parameter.from_ln 2 100 3 120 450 true 2).isSome ∧
      Parameter.from_ln 2 100 0 120 450 true 2 = none ∧
      Parameter.from_ln 3 60 5 18 24 true 100 = none := by
  refine ⟨?_, ?_, ?_⟩
  · exact spec_c3.2.2.2 2 100 3 120 450 true 2 (by norm_num) (by norm_num)
      (by norm_num) (by norm_num) (by norm_num) (by norm_num)
  · exact spec_c3.2.1 2 100 120 450 true 2
  · exact spec_c3.2.2.1 3 60 5 18 24 true 100 (by norm_num)

/-- C7.  Every `Parameter` produced by any of the factories (`from_fx`,
`from_ftl`, `from_ln`, `from_lr`, `from_parameter_and_link`) or by validated
direct construction satisfies the structural invariant: the five per-layer
sequences have equal length, and `lay_min[i] ≤ lay_max[i]` and
`par_min[i] ≤ par_max[i]` hold for every layer `i`. -/
theorem spec_c7 :
    (∀ (value : ℚ) (p : Parameter),
      Parameter.from_fx value = some p → p.wf) ∧
    (∀ (nlayers : ℕ) (thickness par_min par_max : ℚ) (par_rev : Bool)
        (p : Parameter),
      Parameter.from_ftl nlayers thickness par_min par_max par_rev = some p →
        p.wf) ∧
    (∀ (wmin wmax : ℚ) (nlayers : ℕ) (par_min par_max : ℚ) (par_rev : Bool)
        (depth_factor : ℚ) (p : Parameter),
      Parameter.from_ln wmin wmax nlayers par_min par_max par_rev
        depth_factor = some p → p.wf) ∧
    (∀ (wmin wmax lr par_min par_max : ℚ) (par_rev : Bool) (depth_factor : ℚ)
        (p : Parameter),
      Parameter.from_lr wmin wmax lr par_min par_max par_rev depth_factor =
        some p → p.wf) ∧
    (∀ (par_min par_max : ℚ) (par_rev : Bool) (existing : Parameter)
        (ptype : String) (p : Parameter),
      existing.wf →
      Parameter.from_parameter_and_link par_min par_max par_rev existing
        ptype = some p → p.wf) ∧
    (∀ (lay_min lay_max par_min par_max : List ℚ) (par_rev : List Bool)
        (lt : LayType) (p : Parameter),
      Parameter.create lay_min lay_max par_min par_max par_rev lt = some p →
        p.wf) := by
  refine ⟨?_, ?_, ?_, ?_, ?_, ?_⟩
  · intro value p hp
    rw [Parameter.from_fx] at hp
    by_cases hv : 0 < value
    · rw [if_pos hv] at hp
      injection hp with hp
      subst hp
      refine ⟨⟨rfl, rfl, rfl, rfl⟩, ?_, ?_⟩
      · intro q hq
        simp only [List.zip_cons_cons, List.zip_nil_right, List.mem_singleton]
          at hq
        rw [hq]; norm_num
      · intro q hq
        simp only [List.zip_cons_cons, List.zip_nil_right, List.mem_singleton]
          at hq
        rw [hq]
    · rw [if_neg hv] at hp
      exact absurd hp (by simp)
  · intro nlayers thickness par_min par_max par_rev p hp
    rw [Parameter.from_ftl] at hp
    by_cases hc : 1 ≤ nlayers ∧ 0 < thickness ∧ par_min ≤ par_max
    · rw [if_pos hc] at hp
      injection hp with hp
      subst hp
      exact ⟨⟨by simp, by simp, by simp, by simp⟩,
        pairwiseLE_replicate nlayers thickness thickness (le_refl thickness),
        pairwiseLE_replicate nlayers par_min par_max hc.2.2⟩
    · rw [if_neg hc] at hp
      exact absurd hp (by simp)
  · intro wmin wmax nlayers par_min par_max par_rev depth_factor p hp
    rw [Parameter.from_ln] at hp
    by_cases hc : 0 < wmin ∧ wmin < wmax ∧ 1 ≤ nlayers ∧ par_min ≤ par_max ∧
        0 < depth_factor ∧ wmin / 3 ≤ wmax / depth_factor
    · rw [if_pos hc] at hp
      injection hp with hp
      subst hp
      exact ⟨⟨by simp, by simp, by simp, by simp⟩,
        pairwiseLE_replicate nlayers (wmin / 3) (wmax / depth_factor)
          hc.2.2.2.2.2,
        pairwiseLE_replicate nlayers par_min par_max hc.2.2.2.1⟩
    · rw [if_neg hc] at hp
      exact absurd hp (by simp)
  · intro wmin wmax lr par_min par_max par_rev depth_factor p hp
    rw [Parameter.from_lr] at hp
    by_cases hc : 0 < wmin ∧ wmin < wmax ∧ 1 < lr ∧ par_min ≤ par_max ∧
        0 < depth_factor ∧ wmin / 2 ≤ wmax / depth_factor
    · rw [if_pos hc] at hp
      injection hp with hp
      subst hp
      obtain ⟨h1, h2, h3, h4, h5, h6⟩ := hc
      have hchain : List.Chain' (· ≤ ·) (lrBnds wmin wmax depth_factor lr) :=
        lrBnds_chain lr (wmin / 2) (wmin / 3) (wmax / depth_factor)
          (lrFuel (wmin / 2) (wmax / depth_factor)) (by linarith)
          (by linarith) h3 h6
      refine ⟨⟨?_, ?_, ?_, ?_⟩, chain'_pairwiseLE _ hchain,
        pairwiseLE_replicate _ par_min par_max h4⟩
      · rw [List.length_tail, List.length_dropLast]
      · rw [List.length_replicate, List.length_dropLast]
      · rw [List.length_replicate, List.length_dropLast]
      · rw [List.length_replicate, List.length_dropLast]
    · rw [if_neg hc] at hp
      exact absurd hp (by simp)
  · intro par_min par_max par_rev existing ptype p hex hp
    rw [Parameter.from_parameter_and_link] at hp
    by_cases hc : 1 ≤ existing.lay_min.length ∧ par_min ≤ par_max ∧
        ptype ∈ ["vp", "vs", "pr", "rh"]
    · rw [if_pos hc] at hp
      injection hp with hp
      subst hp
      exact ⟨⟨hex.1.1, by simp, by simp, by simp⟩, hex.2.1,
        pairwiseLE_replicate _ par_min par_max hc.2.1⟩
    · rw [if_neg hc] at hp
      exact absurd hp (by simp)
  · intro lay_min lay_max par_min par_max par_rev lt p hp
    rw [Parameter.create] at hp
    by_cases hc : (Parameter.mk lay_min lay_max par_min par_max par_rev
        lt).wf
    · rw [if_pos hc] at hp
      injection hp with hp
      subst hp
      exact hc
    · rw [if_neg hc] at hp
      exact absurd hp (by simp)

/-- Closed witness for C7: the invariant at factory outputs for concrete
notebook inputs. -/
theorem spec_c7_witness :
    Parameter.wf ⟨[1824], [1883], [2000], [2000], [false], LayType.FX⟩ ∧
      Parameter.wf ⟨[2/3, 1, 4, 13, 50], [1, 4, 13, 50, 51],
        [120, 120, 120, 120, 120], [450, 450, 450, 450, 450],
        [true, true, true, true, true], LayType.LR⟩ := by
  constructor
  · exact spec_c7.1 2000 _ (by norm_num [Parameter.from_fx])
  · exact spec_c7.2.2.2.1 2 100 3 120 450 true 2 _ from_lr_notebook_example

/-- Modelled from the spec: an abstract token of the engine's text formats.
The concrete byte-level layout of `.param` and `.target` files is not part of
the snapshot, so a file is modelled as the sequence of values it encodes. -/
inductive Tok where
  | num (q : ℚ)
  | nat (n : ℕ)
  | boolean (b : Bool)
  | str (s : String)
deriving DecidableEq

/-- Read `n` numeric tokens, returning them with the remaining tokens. -/
def takeNums : ℕ → List Tok → Option (List ℚ × List Tok)
  | 0, ts => some ([], ts)
  | n + 1, Tok.num q :: ts =>
    match takeNums n ts with
    | some (qs, rest) => some (q :: qs, rest)
    | none => none
  | _ + 1, _ => none

/-- Read `n` boolean tokens, returning them with the remaining tokens. -/
def takeBools : ℕ → List Tok → Option (List Bool × List Tok)
  | 0, ts => some ([], ts)
  | n + 1, Tok.boolean b :: ts =>
    match takeBools n ts with
    | some (bs, rest) => some (b :: bs, rest)
    | none => none
  | _ + 1, _ => none

theorem takeNums_append (xs : List ℚ) (rest : List Tok) :
    takeNums xs.length (xs.map Tok.num ++ rest) = some (xs, rest) := by
  induction xs with
  | nil => rfl
  | cons x xs ih => simp [takeNums, ih]

theorem takeBools_append (xs : List Bool) (rest : List Tok) :
    takeBools xs.length (xs.map Tok.boolean ++ rest) = some (xs, rest) := by
  induction xs with
  | nil => rfl
  | cons x xs ih => simp [takeBools, ih]

/-- Count-generalized form of `takeNums_append` for targeted rewriting. -/
theorem takeNums_append' (n : ℕ) (xs : List ℚ) (h : xs.length = n)
    (rest : List Tok) :
    takeNums n (xs.map Tok.num ++ rest) = some (xs, rest) :=
  h ▸ takeNums_append xs rest

/-- Count-generalized form of `takeBools_append`. -/
theorem takeBools_append' (n : ℕ) (xs : List Bool) (h : xs.length = n)
    (rest : List Tok) :
    takeBools n (xs.map Tok.boolean ++ rest) = some (xs, rest) :=
  h ▸ takeBools_append xs rest

/-- Tag written to the file for each layering scheme. -/
def layTypeTag : LayType → String
  | LayType.FX => "FX"
  | LayType.FTL => "FTL"
  | LayType.LN => "LN"
  | LayType.LR => "LR"
  | LayType.CT => "CT"

/-- Reverse lookup of `layTypeTag`. -/
def layTypeOfTag (s : String) : Option LayType :=
  if s = "FX" then some LayType.FX
  else if s = "FTL" then some LayType.FTL
  else if s = "LN" then some LayType.LN
  else if s = "LR" then some LayType.LR
  else if s = "CT" then some LayType.CT
  else none

theorem layTypeOfTag_tag (t : LayType) : layTypeOfTag (layTypeTag t) = some t := by
  cases t <;> rfl

/-- Modelled from the spec: one parameter section of a `.param` file, the
layer count followed by the per-layer minima, maxima, value bounds, reversal
flags, and the layering tag. -/
def serializeParameter (p : Parameter) : List Tok :=
  Tok.nat p.lay_min.length ::
    (p.lay_min.map Tok.num ++ (p.lay_max.map Tok.num ++ (p.par_min.map Tok.num
      ++ (p.par_max.map Tok.num ++ (p.par_rev.map Tok.boolean ++
        [Tok.str (layTypeTag p.lay_type)])))))

/-- Modelled from the spec: parse one parameter section back, failing when
the expected markers are absent or the field counts mismatch. -/
def parseParameter : List Tok → Option (Parameter × List Tok)
  | Tok.nat n :: ts =>
    match takeNums n ts with
    | some (lmin, ts1) =>
      match takeNums n ts1 with
      | some (lmax, ts2) =>
        match takeNums n ts2 with
        | some (pmin, ts3) =>
          match takeNums n ts3 with
          | some (pmax, ts4) =>
            match takeBools n ts4 with
            | some (prev, ts5) =>
              match ts5 with
              | Tok.str tag :: ts6 =>
                match layTypeOfTag tag with
                | some lt => some (⟨lmin, lmax, pmin, pmax, prev, lt⟩, ts6)
                | none => none
              | _ => none
            | none => none
          | none => none
        | none => none
      | none => none
    | none => none
  | _ => none

/-- Parsing inverts serialization for any length-consistent parameter. -/
theorem parseParameter_serialize (p : Parameter) (hp : p.wfLen)
    (rest : List Tok) :
    parseParameter (serializeParameter p ++ rest) = some (p, rest) := by
  obtain ⟨h1, h2, h3, h4⟩ := hp
  simp only [serializeParameter, List.cons_append, List.append_assoc,
    List.nil_append, parseParameter,
    takeNums_append' p.lay_min.length p.lay_min rfl,
    takeNums_append' p.lay_min.length p.lay_max h1,
    takeNums_append' p.lay_min.length p.par_min h2,
    takeNums_append' p.lay_min.length p.par_max h3,
    takeBools_append' p.lay_min.length p.par_rev h4,
    layTypeOfTag_tag]

/-- Variant of `parseParameter_serialize` with no trailing tokens. -/
theorem parseParameter_serialize_nil (p : Parameter) (hp : p.wfLen) :
    parseParameter (serializeParameter p) = some (p, []) := by
  have h := parseParameter_serialize p hp []
  rwa [List.append_nil] at h

/-- Modelled from the spec: a `Parameterization` bundles the four
`Parameter`s for compression-wave velocity, Poisson's ratio, shear-wave
velocity and mass density. -/
structure Parameterization where
  vp : Parameter
  pr : Parameter
  vs : Parameter
  rh : Parameter
deriving DecidableEq

/-- Modelled from the spec: `Parameterization.to_param(path, version)`
written as the file content it produces, a version header followed by the
four parameter sections; the two supported schema versions are abstracted by
their version header since the byte-level schema is not in the snapshot.
Unsupported versions are rejected. -/
def Parameterization.to_param (p : Parameterization) (version : String) :
    Option (List Tok) :=
  if version ∈ SUPPORTED_GEOPSY_VERSIONS then
    some (Tok.str version :: (serializeParameter p.vp ++ (serializeParameter
      p.pr ++ (serializeParameter p.vs ++ serializeParameter p.rh))))
  else none

/-- Modelled from the spec: `Parameterization.from_param(path, version)`,
failing with a format error when the version header or any section marker is
absent, when field counts mismatch, or when trailing junk remains. -/
def Parameterization.from_param : List Tok → String → Option Parameterization
  | Tok.str v :: ts, version =>
    if v = version ∧ version ∈ SUPPORTED_GEOPSY_VERSIONS then
      match parseParameter ts with
      | some (vp, ts1) =>
        match parseParameter ts1 with
        | some (pr, ts2) =>
          match parseParameter ts2 with
          | some (vs, ts3) =>
            match parseParameter ts3 with
            | some (rh, []) => some ⟨vp, pr, vs, rh⟩
            | _ => none
          | none => none
        | none => none
      | none => none
    else none
  | _, _ => none

/-- C1.  For every length-consistent `Parameterization` and every supported
version, parsing the parameter file written by `to_param` with `from_param`
returns a structurally equal `Parameterization`. -/
theorem spec_c1 (P : Parameterization) (v : String)
    (hv : v ∈ SUPPORTED_GEOPSY_VERSIONS) (h1 : P.vp.wfLen) (h2 : P.pr.wfLen)
    (h3 : P.vs.wfLen) (h4 : P.rh.wfLen) :
    (P.to_param v).isSome ∧
      (P.to_param v).bind (fun file => Parameterization.from_param file v) =
        some P := by
  rw [Parameterization.to_param, if_pos hv]
  refine ⟨rfl, ?_⟩
  show Parameterization.from_param (Tok.str v :: (serializeParameter P.vp ++
    (serializeParameter P.pr ++ (serializeParameter P.vs ++
      serializeParameter P.rh)))) v = some P
  simp only [Parameterization.from_param, if_pos (And.intro rfl hv),
    parseParameter_serialize P.vp h1, parseParameter_serialize P.pr h2,
    parseParameter_serialize P.vs h3, parseParameter_serialize_nil P.rh h4]
  rw [if_pos (And.intro trivial hv)]

/-- Closed witness for C1: the round trip at a concrete one-layer-per-field
parameterization and the supported version string 2.10.1. -/
theorem spec_c1_witness :
    ((Parameterization.mk
        ⟨[1824], [1883], [2000], [2000], [false], LayType.FX⟩
        ⟨[2/3], [10], [1/5], [1/2], [false], LayType.LN⟩
        ⟨[2/3, 1], [1, 3], [100, 100], [350, 350], [false, false],
          LayType.LR⟩
        ⟨[1824], [1883], [2000], [2000], [false], LayType.FX⟩).to_param
      ver2).bind
      (fun file => Parameterization.from_param file ver2) =
      some (Parameterization.mk
        ⟨[1824], [1883], [2000], [2000], [false], LayType.FX⟩
        ⟨[2/3], [10], [1/5], [1/2], [false], LayType.LN⟩
        ⟨[2/3, 1], [1, 3], [100, 100], [350, 350], [false, false],
          LayType.LR⟩
        ⟨[1824], [1883], [2000], [2000], [false], LayType.FX⟩) :=
  (spec_c1 _ ver2 (by simp [SUPPORTED_GEOPSY_VERSIONS]) (by constructor <;> simp)
    (by constructor <;> simp) (by constructor <;> simp)
    (by constructor <;> simp)).2

/-- Modelled from the spec: a `GroundModel` is an ordered sequence of layers,
each with thickness (the final entry 0 marking the half-space), Vp, Vs and
mass density. -/
structure GroundModel where
  tk : List ℚ
  vp : List ℚ
  vs : List ℚ
  density : List ℚ
deriving DecidableEq

/-- Modelled from the spec: the stair-step lookup of a layered profile.  The
value at depth `d` is that of the layer whose depth interval contains `d`,
where a layer's top boundary belongs to the layer below it and the last layer
extends to infinity. -/
def stairLookup : List ℚ → List ℚ → ℚ → ℚ
  | [_], v :: _, _ => v
  | t :: ts, v :: vs, d =>
    if d < t then v else stairLookup ts vs (d - t)
  | _, _, _ => 0

/-- The four parameters a profile can be sampled for. -/
inductive ParamKind where
  | vs
  | vp
  | rh
  | pr
deriving DecidableEq

/-- Modelled from the spec: the per-layer value sequence of a named
parameter; Poisson's ratio is derived from Vp and Vs layer by layer. -/
def GroundModel.profile (gm : GroundModel) : ParamKind → List ℚ
  | ParamKind.vs => gm.vs
  | ParamKind.vp => gm.vp
  | ParamKind.rh => gm.density
  | ParamKind.pr =>
    List.zipWith (fun p s => (p ^ 2 - 2 * s ^ 2) / (2 * (p ^ 2 - s ^ 2)))
      gm.vp gm.vs

/-- The stair-step value of a named parameter at one depth. -/
def GroundModel.valueAt (gm : GroundModel) (k : ParamKind) (d : ℚ) : ℚ :=
  stairLookup gm.tk (gm.profile k) d

/-- Modelled from the spec: `GroundModel.discretize(max_depth,
depth_increment, parameter)` samples the named parameter at the fixed depth
increments `0, dy, 2*dy, ...` up to and including `max_depth` (the
GroundModel notebook prints 21 depth samples for `max_depth=20, dy=1`),
extending past the profile bottom with the half-space value; the call fails
when `max_depth ≤ 0` or `dy ≤ 0`. -/
def GroundModel.discretize (gm : GroundModel) (max_depth dy : ℚ)
    (k : ParamKind) : Option (List ℚ × List ℚ) :=
  if 0 < max_depth ∧ 0 < dy then
    some ((List.range ((⌊max_depth / dy⌋).toNat + 1)).map
      (fun i : ℕ => (i : ℚ) * dy),
      (List.range ((⌊max_depth / dy⌋).toNat + 1)).map
        (fun i : ℕ => gm.valueAt k ((i : ℚ) * dy)))
  else none

/-- The cumulative bottom depths of the finite layers of a thickness list
whose final entry marks the half-space. -/
def cumDepths (tk : List ℚ) : List ℚ :=
  (tk.dropLast.scanl (· + ·) 0).tail

/-- Modelled from the spec: `GroundModel.from_simple_profiles` merges three
independently layered profiles into one common layering whose boundaries are
the sorted union of the three profiles' cumulative layer boundaries; every
merged layer carries the stair-step value each source profile takes at the
merged layer's top depth. -/
def GroundModel.from_simple_profiles (vp_tk vp vs_tk vs rh_tk rh : List ℚ) :
    GroundModel :=
  let bs := ((cumDepths vp_tk ++ cumDepths vs_tk ++
    cumDepths rh_tk).insertionSort (· ≤ ·)).dedup
  let tops := 0 :: bs
  { tk := List.zipWith (· - ·) bs tops ++ [0]
    vp := tops.map (stairLookup vp_tk vp)
    vs := tops.map (stairLookup vs_tk vs)
    density := tops.map (stairLookup rh_tk rh) }

/-- The merge model reproduces the GroundModel notebook output for the
profiles `vp_tk=[2,0], vp=[300,1500]`, `vs_tk=[3,5,0], vs=[150,200,300]` and
`rh_tk=[0], rh=[2000]`: four merged layers `2.0/1.0/5.0/0.0` carrying
`vp=[300,1500,1500,1500]`, `vs=[150,150,200,300]`, `rh=[2000]*4`. -/
theorem from_simple_profiles_notebook_example :
    GroundModel.from_simple_profiles [2, 0] [300, 1500] [3, 5, 0]
        [150, 200, 300] [0] [2000] =
      ⟨[2, 1, 5, 0], [300, 1500, 1500, 1500], [150, 150, 200, 300],
        [2000, 2000, 2000, 2000]⟩ := by
  norm_num [GroundModel.from_simple_profiles, cumDepths, stairLookup,
    List.insertionSort, List.orderedInsert, List.dedup, List.pwFilter]

/-- C4, counterexample.  With the Vp profile layered at thicknesses `[2,0]`
and the Vs profile at `[3,5,0]`, the merged layer boundaries produced by
`from_simple_profiles` are `{2,3,8}` — the Vs thicknesses 3 and 5 accumulate
to depths 3 and 8 — and not `{2,3,5}` as the claim states. -/
theorem spec_c4_counterexample :
    cumDepths (GroundModel.from_simple_profiles [2, 0] [300, 1500] [3, 5, 0]
        [150, 200, 300] [0] [2000]).tk = [2, 3, 8] ∧
      [(2 : ℚ), 3, 8] ≠ [2, 3, 5] := by
  constructor
  · norm_num [GroundModel.from_simple_profiles, cumDepths, stairLookup,
      List.insertionSort, List.orderedInsert, List.dedup, List.pwFilter]
  · intro h
    have h8 := congrArg (fun l => l.get? 2) h
    norm_num at h8

/-- C4, amended.  `from_simple_profiles` with Vp layered at `[2,0]` and Vs at
`[3,5,0]` (thicknesses; cumulative boundaries 2 and 3, 8) and one constant
density layer produces a merged model with 4 total layers whose boundary
depths are the union `{2,3,8}`, each merged layer carrying the Vp/Vs/density
value active at its top depth in the corresponding source profile. -/
theorem spec_c4 :
    (GroundModel.from_simple_profiles [2, 0] [300, 1500] [3, 5, 0]
      [150, 200, 300] [0] [2000]).tk.length = 4 ∧
    cumDepths (GroundModel.from_simple_profiles [2, 0] [300, 1500] [3, 5, 0]
      [150, 200, 300] [0] [2000]).tk = [2, 3, 8] ∧
    GroundModel.from_simple_profiles [2, 0] [300, 1500] [3, 5, 0]
        [150, 200, 300] [0] [2000] =
      ⟨[2, 1, 5, 0], [300, 1500, 1500, 1500], [150, 150, 200, 300],
        [2000, 2000, 2000, 2000]⟩ ∧
    ([(0 : ℚ), 2, 3, 8].map (fun d =>
        (GroundModel.from_simple_profiles [2, 0] [300, 1500] [3, 5, 0]
          [150, 200, 300] [0] [2000]).valueAt ParamKind.vp d) =
      [(0 : ℚ), 2, 3, 8].map (stairLookup [2, 0] [300, 1500])) ∧
    ([(0 : ℚ), 2, 3, 8].map (fun d =>
        (GroundModel.from_simple_profiles [2, 0] [300, 1500] [3, 5, 0]
          [150, 200, 300] [0] [2000]).valueAt ParamKind.vs d) =
      [(0 : ℚ), 2, 3, 8].map (stairLookup [3, 5, 0] [150, 200, 300])) ∧
    ([(0 : ℚ), 2, 3, 8].map (fun d =>
        (GroundModel.from_simple_profiles [2, 0] [300, 1500] [3, 5, 0]
          [150, 200, 300] [0] [2000]).valueAt ParamKind.rh d) =
      [(0 : ℚ), 2, 3, 8].map (stairLookup [0] [2000])) := by
  refine ⟨?_, ?_, ?_, ?_, ?_, ?_⟩ <;>
    norm_num [GroundModel.from_simple_profiles, GroundModel.valueAt,
      GroundModel.profile, cumDepths, stairLookup, List.insertionSort,
      List.orderedInsert, List.dedup, List.pwFilter]

/-- C5.  Discretizing the 2-layer model (layer 1: thickness 10, `vs=100`;
half-space `vs=300`) with `max_depth=20, depth_increment=1, parameter=vs`
returns the 21 depths `0,1,...,20` and at every depth the stair-step value,
`100` strictly above depth 10 and `300` from depth 10 downward. -/
theorem spec_c5 :
    GroundModel.discretize ⟨[10, 0], [200, 600], [100, 300], [2000, 2000]⟩
        20 1 ParamKind.vs =
      some ([0, 1, 2, 3, 4, 5, 6, 7, 8, 9, 10, 11, 12, 13, 14, 15, 16, 17,
        18, 19, 20],
        [100, 100, 100, 100, 100, 100, 100, 100, 100, 100, 300, 300, 300,
          300, 300, 300, 300, 300, 300, 300, 300]) ∧
    ([(100 : ℚ), 100, 100, 100, 100, 100, 100, 100, 100, 100, 300, 300, 300,
        300, 300, 300, 300, 300, 300, 300, 300] =
      [(0 : ℚ), 1, 2, 3, 4, 5, 6, 7, 8, 9, 10, 11, 12, 13, 14, 15, 16, 17,
        18, 19, 20].map (fun d => if d < 10 then (100 : ℚ) else 300)) := by
  constructor
  · rw [GroundModel.discretize, if_pos (by norm_num : (0 : ℚ) < 20 ∧ (0 : ℚ) < 1)]
    rw [show ((⌊(20 : ℚ) / 1⌋).toNat + 1) = 21 from by
      rw [show ⌊(20 : ℚ) / 1⌋ = 20 from by norm_num]
      rfl]
    norm_num [GroundModel.valueAt, GroundModel.profile, stairLookup,
      List.range_succ]
  · norm_num

/-- Arithmetic mean of a list of rationals. -/
def mean (xs : List ℚ) : ℚ := xs.sum / xs.length

/-- Sample variance (denominator `n - 1`), undefined below two entries. -/
def sampleVar (xs : List ℚ) : ℚ :=
  (xs.map (fun x => (x - mean xs) ^ 2)).sum / ((xs.length : ℚ) - 1)

/-- The sample variance of two equal observations vanishes. -/
theorem sampleVar_pair (x : ℚ) : sampleVar [x, x] = 0 := by
  have hm : mean [x, x] = x := by
    simp [mean]
  simp [sampleVar, hm]

/-- Modelled from the spec: a `GroundModelSuite` is an ordered list of
ground models (best-misfit first when parsed from engine output). -/
structure GroundModelSuite where
  gms : List GroundModel
deriving DecidableEq

/-- Modelled from the spec: `GroundModelSuite.sigma_ln(parameter, ...)`
discretizes every member model at the fixed depth increments and, depth by
depth, takes the sample standard deviation of the natural logarithms of the
member values.  The transcendental natural logarithm and square root are
abstracted as function parameters, since they have no exact rational form;
the suite must have at least two members for the statistic to be defined. -/
def GroundModelSuite.sigma_ln (s : GroundModelSuite) (k : ParamKind)
    (dmax dy : ℚ) (log sqrt : ℚ → ℚ) : Option (List ℚ × List ℚ) :=
  if 2 ≤ s.gms.length ∧ 0 < dmax ∧ 0 < dy then
    some ((List.range ((⌊dmax / dy⌋).toNat + 1)).map
      (fun i : ℕ => (i : ℚ) * dy),
      (List.range ((⌊dmax / dy⌋).toNat + 1)).map (fun i : ℕ =>
        sqrt (sampleVar
          (s.gms.map (fun gm => log (gm.valueAt k ((i : ℚ) * dy)))))))
  else none

/-- C6.  `sigma_ln` returns parallel depth and sigma sequences in which the
sigma at each depth is the sample standard deviation of the logs of the
member models' discretized values at that depth; a suite of two identical
models yields sigma 0 at every depth, and a suite with fewer than two models
is rejected. -/
theorem spec_c6 :
    (∀ (s : GroundModelSuite) (k : ParamKind) (dmax dy : ℚ)
        (log sqrt : ℚ → ℚ) (pair : List ℚ × List ℚ),
      s.sigma_ln k dmax dy log sqrt = some pair →
        pair.1.length = pair.2.length ∧
        pair.2 = pair.1.map (fun d =>
          sqrt (sampleVar (s.gms.map (fun gm => log (gm.valueAt k d)))))) ∧
    (∀ (g : GroundModel) (k : ParamKind) (dmax dy : ℚ) (log sqrt : ℚ → ℚ),
      sqrt 0 = 0 →
      ∀ pair, (GroundModelSuite.mk [g, g]).sigma_ln k dmax dy log sqrt =
          some pair →
        ∀ x ∈ pair.2, x = 0) ∧
    (∀ (s : GroundModelSuite) (k : ParamKind) (dmax dy : ℚ)
        (log sqrt : ℚ → ℚ),
      s.gms.length < 2 → s.sigma_ln k dmax dy log sqrt = none) ∧
    (∀ (s : GroundModelSuite) (k : ParamKind) (dmax dy : ℚ)
        (log sqrt : ℚ → ℚ),
      2 ≤ s.gms.length → 0 < dmax → 0 < dy →
      (s.sigma_ln k dmax dy log sqrt).isSome) := by
  refine ⟨?_, ?_, ?_, ?_⟩
  · intro s k dmax dy log sqrt pair hp
    rw [GroundModelSuite.sigma_ln] at hp
    by_cases hc : 2 ≤ s.gms.length ∧ 0 < dmax ∧ 0 < dy
    · rw [if_pos hc] at hp
      injection hp with hp
      subst hp
      constructor
      · simp
      · rw [List.map_map]
        rfl
    · rw [if_neg hc] at hp
      exact absurd hp (by simp)
  · intro g k dmax dy log sqrt hsqrt pair hp
    rw [GroundModelSuite.sigma_ln] at hp
    by_cases hc : 2 ≤ (GroundModelSuite.mk [g, g]).gms.length ∧ 0 < dmax ∧
        0 < dy
    · rw [if_pos hc] at hp
      injection hp with hp
      subst hp
      intro x hx
      simp only [List.mem_map] at hx
      obtain ⟨i, -, hxi⟩ := hx
      rw [← hxi]
      rw [show (GroundModelSuite.mk [g, g]).gms.map
        (fun gm => log (gm.valueAt k ((i : ℚ) * dy))) =
        [log (g.valueAt k ((i : ℚ) * dy)),
          log (g.valueAt k ((i : ℚ) * dy))] from rfl]
      rw [sampleVar_pair, hsqrt]
    · rw [if_neg hc] at hp
      exact absurd hp (by simp)
  · intro s k dmax dy log sqrt hlen
    rw [GroundModelSuite.sigma_ln, if_neg]
    rintro ⟨h2, -⟩
    omega
  · intro s k dmax dy log sqrt h1 h2 h3
    rw [GroundModelSuite.sigma_ln, if_pos ⟨h1, h2, h3⟩]
    rfl

/-- Closed witness for C6: a one-model suite is rejected, a two-identical-
model suite succeeds, and the resulting sigma sequence is all zeros. -/
theorem spec_c6_witness :
    (GroundModelSuite.mk [⟨[10, 0], [200, 600], [100, 300],
      [2000, 2000]⟩]).sigma_ln ParamKind.vs 1 1 id id = none ∧
    ((GroundModelSuite.mk [⟨[10, 0], [200, 600], [100, 300], [2000, 2000]⟩,
      ⟨[10, 0], [200, 600], [100, 300], [2000, 2000]⟩]).sigma_ln
      ParamKind.vs 1 1 id id).isSome ∧
    ((GroundModelSuite.mk [⟨[10, 0], [200, 600], [100, 300], [2000, 2000]⟩,
      ⟨[10, 0], [200, 600], [100, 300], [2000, 2000]⟩]).sigma_ln
      ParamKind.vs 1 1 id id).getD ([], []) = ([0, 1], [0, 0]) := by
  refine ⟨?_, ?_, ?_⟩
  · exact spec_c6.2.2.1 _ ParamKind.vs 1 1 id id (by norm_num)
  · exact spec_c6.2.2.2 _ ParamKind.vs 1 1 id id (by norm_num) (by norm_num)
      (by norm_num)
  · have heval : (GroundModelSuite.mk
        [⟨[10, 0], [200, 600], [100, 300], [2000, 2000]⟩,
          ⟨[10, 0], [200, 600], [100, 300], [2000, 2000]⟩]).sigma_ln
        ParamKind.vs 1 1 id id =
        some ([0, 1], [id (sampleVar [id ((100 : ℚ)), id 100]),
          id (sampleVar [id ((100 : ℚ)), id 100])]) := by
      rw [GroundModelSuite.sigma_ln, if_pos (by norm_num)]
      rw [show ((⌊(1 : ℚ) / 1⌋).toNat + 1) = 2 from by
        rw [show ⌊(1 : ℚ) / 1⌋ = 1 from by norm_num]
        rfl]
      norm_num [GroundModel.valueAt, GroundModel.profile, stairLookup,
        List.range_succ]
    have hzero := spec_c6.2.1 ⟨[10, 0], [200, 600], [100, 300], [2000, 2000]⟩
      ParamKind.vs 1 1 id id rfl _ heval
    rw [heval]
    have h1 := hzero (id (sampleVar [id ((100 : ℚ)), id 100])) (by simp)
    rw [show ((some ([(0 : ℚ), 1],
      [id (sampleVar [id ((100 : ℚ)), id 100]),
        id (sampleVar [id ((100 : ℚ)), id 100])])).getD ([], [])) =
      ([(0 : ℚ), 1], [id (sampleVar [id ((100 : ℚ)), id 100]),
        id (sampleVar [id ((100 : ℚ)), id 100])]) from rfl]
    rw [h1]

/-- Modelled from the spec: the wave type of a modal dispersion curve. -/
inductive WaveType where
  | rayleigh
  | love
deriving DecidableEq

/-- Modelled from the spec: a `ModalTarget` holds equal-length frequency,
velocity and velocity-uncertainty arrays together with a mode description,
a list of wave-type and mode-number pairs. -/
structure ModalTarget where
  frequency : List ℚ
  velocity : List ℚ
  velstd : List ℚ
  description : List (WaveType × ℕ)
deriving DecidableEq

/-- Derived wavelengths, velocity over frequency entry by entry. -/
def ModalTarget.wavelength (t : ModalTarget) : List ℚ :=
  List.zipWith (· / ·) t.velocity t.frequency

/-- Length consistency of the three data arrays of a modal target. -/
def ModalTarget.wfLen (t : ModalTarget) : Prop :=
  t.velocity.length = t.frequency.length ∧
    t.velstd.length = t.frequency.length

instance (t : ModalTarget) : Decidable t.wfLen := by
  unfold ModalTarget.wfLen; infer_instance

/-- Modelled from the spec: a `TargetSet` is a list of modal targets. -/
structure TargetSet where
  targets : List ModalTarget
deriving DecidableEq

/-- Tag written for a wave type. -/
def waveTag : WaveType → String
  | WaveType.rayleigh => "rayleigh"
  | WaveType.love => "love"

/-- Reverse lookup of `waveTag`. -/
def waveOfTag (s : String) : Option WaveType :=
  if s = "rayleigh" then some WaveType.rayleigh
  else if s = "love" then some WaveType.love
  else none

theorem waveOfTag_tag (w : WaveType) : waveOfTag (waveTag w) = some w := by
  cases w <;> rfl

/-- The frequency, velocity, uncertainty triples of one curve, interleaved. -/
def serializeTriples : List ℚ → List ℚ → List ℚ → List Tok
  | f :: fs, v :: vs, s :: ss =>
    Tok.num f :: Tok.num v :: Tok.num s :: serializeTriples fs vs ss
  | _, _, _ => []

/-- Read back `n` frequency, velocity, uncertainty triples. -/
def takeTriples : ℕ → List Tok → Option ((List ℚ × List ℚ × List ℚ) × List Tok)
  | 0, ts => some (([], [], []), ts)
  | n + 1, Tok.num f :: Tok.num v :: Tok.num s :: ts =>
    match takeTriples n ts with
    | some ((fs, vs, ss), rest) => some ((f :: fs, v :: vs, s :: ss), rest)
    | none => none
  | _ + 1, _ => none

theorem takeTriples_serialize :
    ∀ (fs vs ss : List ℚ) (rest : List Tok), vs.length = fs.length →
      ss.length = fs.length →
      takeTriples fs.length (serializeTriples fs vs ss ++ rest) =
        some ((fs, vs, ss), rest) := by
  intro fs
  induction fs with
  | nil =>
    intro vs ss rest hv hs
    rw [List.length_eq_zero.mp hv, List.length_eq_zero.mp hs]
    rfl
  | cons f fs ih =>
    intro vs ss rest hv hs
    match vs, ss with
    | v :: vs, s :: ss =>
      simp only [List.length_cons, Nat.succ.injEq] at hv hs
      simp [serializeTriples, takeTriples, ih vs ss rest hv hs]

/-- The mode description entries, a wave tag and mode number per mode. -/
def serializeModes : List (WaveType × ℕ) → List Tok
  | [] => []
  | m :: ms => Tok.str (waveTag m.1) :: Tok.nat m.2 :: serializeModes ms

/-- Read back `n` mode description entries. -/
def takeModes : ℕ → List Tok → Option (List (WaveType × ℕ) × List Tok)
  | 0, ts => some ([], ts)
  | n + 1, Tok.str w :: Tok.nat k :: ts =>
    match waveOfTag w, takeModes n ts with
    | some wt, some (ds, rest) => some ((wt, k) :: ds, rest)
    | _, _ => none
  | _ + 1, _ => none

theorem takeModes_serialize (ds : List (WaveType × ℕ)) (rest : List Tok) :
    takeModes ds.length (serializeModes ds ++ rest) = some (ds, rest) := by
  induction ds with
  | nil => rfl
  | cons d ds ih =>
    simp [serializeModes, takeModes, waveOfTag_tag, ih]

/-- Modelled from the spec: one modal curve section of a `.target` file, the
point count, the frequency, velocity, uncertainty triples, then the mode
description. -/
def serializeModalTarget (t : ModalTarget) : List Tok :=
  Tok.nat t.frequency.length ::
    (serializeTriples t.frequency t.velocity t.velstd ++
      (Tok.nat t.description.length :: serializeModes t.description))

/-- Parse one modal curve section back. -/
def parseModalTarget : List Tok → Option (ModalTarget × List Tok)
  | Tok.nat n :: ts =>
    match takeTriples n ts with
    | some ((fs, vs, ss), Tok.nat m :: ts1) =>
      match takeModes m ts1 with
      | some (ds, rest) => some (⟨fs, vs, ss, ds⟩, rest)
      | none => none
    | _ => none
  | _ => none

theorem parseModalTarget_serialize (t : ModalTarget) (ht : t.wfLen)
    (rest : List Tok) :
    parseModalTarget (serializeModalTarget t ++ rest) = some (t, rest) := by
  obtain ⟨hv, hs⟩ := ht
  simp only [serializeModalTarget, List.cons_append, List.append_assoc,
    parseModalTarget,
    takeTriples_serialize t.frequency t.velocity t.velstd _ hv hs,
    takeModes_serialize t.description rest]

/-- All curve sections of a target set, concatenated. -/
def serializeTargets : List ModalTarget → List Tok
  | [] => []
  | t :: ts => serializeModalTarget t ++ serializeTargets ts

/-- Read back `n` curve sections. -/
def takeTargets : ℕ → List Tok → Option (List ModalTarget × List Tok)
  | 0, ts => some ([], ts)
  | n + 1, ts =>
    match parseModalTarget ts with
    | some (t, ts1) =>
      match takeTargets n ts1 with
      | some (more, rest) => some (t :: more, rest)
      | none => none
    | none => none

theorem takeTargets_serialize (ts : List ModalTarget)
    (h : ∀ t ∈ ts, t.wfLen) (rest : List Tok) :
    takeTargets ts.length (serializeTargets ts ++ rest) = some (ts, rest) := by
  induction ts with
  | nil => rfl
  | cons t ts ih =>
    have ht := h t (List.mem_cons_self t ts)
    simp only [List.length_cons, serializeTargets, List.append_assoc,
      takeTargets, parseModalTarget_serialize t ht,
      ih (fun u hu => h u (List.mem_cons_of_mem t hu))]

/-- Modelled from the spec: `TargetSet.to_target(path, version)` written as
the file content it produces, a version header, the curve count and the
curve sections; the two schema versions are abstracted by their version
header since the byte-level schema is not in the snapshot.  Unsupported
versions are rejected. -/
def TargetSet.to_target (T : TargetSet) (version : String) :
    Option (List Tok) :=
  if version ∈ SUPPORTED_GEOPSY_VERSIONS then
    some (Tok.str version :: Tok.nat T.targets.length ::
      serializeTargets T.targets)
  else none

/-- Modelled from the spec: `from_txt_dinver(path, version)` parses a target
file back, failing when the version header is absent or wrong, when field
counts mismatch, or when trailing junk remains. -/
def TargetSet.from_txt_dinver : List Tok → String → Option TargetSet
  | Tok.str v :: Tok.nat n :: ts, version =>
    if v = version ∧ version ∈ SUPPORTED_GEOPSY_VERSIONS then
      match takeTargets n ts with
      | some (curves, []) => some ⟨curves⟩
      | _ => none
    else none
  | _, _ => none

/-- C8.  For every length-consistent `TargetSet` and every supported
version, parsing the target file written by `to_target` with
`from_txt_dinver` returns an equal `TargetSet` (equality is exact here since
the model uses exact rationals where the code uses floating point). -/
theorem spec_c8 (T : TargetSet) (v : String)
    (hv : v ∈ SUPPORTED_GEOPSY_VERSIONS) (hT : ∀ t ∈ T.targets, t.wfLen) :
    (T.to_target v).isSome ∧
      (T.to_target v).bind (fun file => TargetSet.from_txt_dinver file v) =
        some T := by
  rw [TargetSet.to_target, if_pos hv]
  refine ⟨rfl, ?_⟩
  show TargetSet.from_txt_dinver (Tok.str v :: Tok.nat T.targets.length ::
    serializeTargets T.targets) v = some T
  have hnil : takeTargets T.targets.length (serializeTargets T.targets) =
      some (T.targets, []) := by
    have h := takeTargets_serialize T.targets hT []
    rwa [List.append_nil] at h
  simp only [TargetSet.from_txt_dinver, if_pos (And.intro rfl hv), hnil]
  rw [if_pos (And.intro trivial hv)]

/-- Closed witness for C8: the round trip at a one-curve target set with the
supported version string 3.4.2. -/
theorem spec_c8_witness :
    ((TargetSet.mk [⟨[1, 10, 100], [100, 200, 300], [5, 5, 5],
      [(WaveType.rayleigh, 0)]⟩]).to_target ver3).bind
      (fun file => TargetSet.from_txt_dinver file ver3) =
      some (TargetSet.mk [⟨[1, 10, 100], [100, 200, 300], [5, 5, 5],
        [(WaveType.rayleigh, 0)]⟩]) :=
  (spec_c8 _ ver3 (by simp [SUPPORTED_GEOPSY_VERSIONS])
    (by intro t ht
        simp only [List.mem_singleton] at ht
        subst ht
        constructor <;> simp)).2

/-- Modelled from the spec: the spacing rule of a resampling request. -/
inductive ResType where
  | linear
  | logarithmic
deriving DecidableEq

/-- Modelled from the spec: the domain a resampling request works in. -/
inductive Domain where
  | frequency
  | wavelength
deriving DecidableEq

/-- The values of a modal target along the chosen domain. -/
def ModalTarget.domainValues (t : ModalTarget) : Domain → List ℚ
  | Domain.frequency => t.frequency
  | Domain.wavelength => t.wavelength

/-- `n` linearly spaced points from `a` to `b`. -/
def linspace (a b : ℚ) (n : ℕ) : List ℚ :=
  (List.range n).map (fun i : ℕ => a + (b - a) * i / ((n : ℚ) - 1))

/-- Modelled from the spec: the resample points, linearly spaced for a
linear request and produced by the abstract geometric spacing function
(standing in for the transcendental log spacing) otherwise. -/
def samplePoints (geom : ℚ → ℚ → ℕ → List ℚ) :
    ResType → ℚ → ℚ → ℕ → List ℚ
  | ResType.linear, a, b, n => linspace a b n
  | ResType.logarithmic, a, b, n => geom a b n

/-- The smallest entry of a list, if any. -/
def listLo : List ℚ → Option ℚ
  | [] => none
  | x :: xs => some (xs.foldl min x)

/-- The largest entry of a list, if any. -/
def listHi : List ℚ → Option ℚ
  | [] => none
  | x :: xs => some (xs.foldl max x)

/-- Modelled from the spec: monotone piecewise-linear interpolation against
a list of sorted abscissa-ordinate pairs. -/
def interp1d : List (ℚ × ℚ) → ℚ → ℚ
  | [], _ => 0
  | [(_, y)], _ => y
  | (x0, y0) :: (x1, y1) :: ps, x =>
    if x ≤ x1 then
      (if x1 = x0 then y0 else y0 + (y1 - y0) * (x - x0) / (x1 - x0))
    else interp1d ((x1, y1) :: ps) x

/-- The domain, velocity, uncertainty triples sorted by domain value. -/
def sortedTriples (t : ModalTarget) (domain : Domain) :
    List (ℚ × ℚ × ℚ) :=
  ((t.domainValues domain).zip (t.velocity.zip t.velstd)).insertionSort
    (fun u w => u.1 ≤ w.1)

/-- Velocities interpolated onto the resample points. -/
def resampledVel (t : ModalTarget) (domain : Domain) (pts : List ℚ) :
    List ℚ :=
  pts.map (interp1d ((sortedTriples t domain).map (fun u => (u.1, u.2.1))))

/-- Uncertainties interpolated onto the resample points. -/
def resampledStd (t : ModalTarget) (domain : Domain) (pts : List ℚ) :
    List ℚ :=
  pts.map (interp1d ((sortedTriples t domain).map (fun u => (u.1, u.2.2))))

/-- The modal target assembled from the resample points: in the frequency
domain the points are the new frequencies; in the wavelength domain the new
frequencies are interpolated velocity over wavelength. -/
def resampleResult (t : ModalTarget) (domain : Domain) (pts : List ℚ) :
    ModalTarget :=
  ⟨(match domain with
    | Domain.frequency => pts
    | Domain.wavelength =>
      List.zipWith (· / ·) (resampledVel t domain pts) pts),
    resampledVel t domain pts, resampledStd t domain pts, t.description⟩

/-- Modelled from the spec: `easy_resample(pmin, pmax, pn, res_type,
domain)`.  Rejects `pmin ≥ pmax` and `pn < 2`, rejects any resample point
outside the convex hull of the original domain values (extrapolation
disallowed), and otherwise interpolates velocity and uncertainty onto the
`pn` new domain points. -/
def ModalTarget.easy_resample (t : ModalTarget) (pmin pmax : ℚ) (pn : ℕ)
    (res_type : ResType) (domain : Domain) (geom : ℚ → ℚ → ℕ → List ℚ) :
    Option ModalTarget :=
  if pmin < pmax ∧ 2 ≤ pn then
    match listLo (t.domainValues domain), listHi (t.domainValues domain) with
    | some lo, some hi =>
      if ∀ q ∈ samplePoints geom res_type pmin pmax pn, lo ≤ q ∧ q ≤ hi then
        some (resampleResult t domain
          (samplePoints geom res_type pmin pmax pn))
      else none
    | _, _ => none
  else none

theorem linspace_length (a b : ℚ) (n : ℕ) : (linspace a b n).length = n := by
  simp [linspace]

/-- Linearly spaced points stay between their endpoints. -/
theorem linspace_mem (a b : ℚ) (n : ℕ) (hab : a ≤ b) (hn : 2 ≤ n) :
    ∀ q ∈ linspace a b n, a ≤ q ∧ q ≤ b := by
  intro q hq
  simp only [linspace, List.mem_map, List.mem_range] at hq
  obtain ⟨i, hi, rfl⟩ := hq
  have hn1 : (0 : ℚ) < (n : ℚ) - 1 := by
    have h2 : (2 : ℚ) ≤ (n : ℚ) := by exact_mod_cast hn
    linarith
  have hi' : (i : ℚ) ≤ (n : ℚ) - 1 := by
    have hle : (i : ℚ) + 1 ≤ (n : ℚ) := by exact_mod_cast hi
    linarith
  have hnum0 : 0 ≤ (b - a) * (i : ℚ) := by
    apply mul_nonneg (by linarith)
    exact_mod_cast Nat.zero_le i
  constructor
  · have h0 : 0 ≤ (b - a) * (i : ℚ) / ((n : ℚ) - 1) :=
      div_nonneg hnum0 (le_of_lt hn1)
    linarith
  · have h1 : (b - a) * (i : ℚ) / ((n : ℚ) - 1) ≤ b - a := by
      rw [div_le_iff₀ hn1]
      have hmul : (b - a) * (i : ℚ) ≤ (b - a) * ((n : ℚ) - 1) :=
        mul_le_mul_of_nonneg_left hi' (by linarith)
      linarith
    linarith

/-- Dividing a list by the entrywise quotient of itself over another list of
the same length recovers that list when no entry vanishes. -/
theorem zipWith_div_div (vs qs : List ℚ) (hlen : vs.length = qs.length)
    (hv : ∀ v ∈ vs, v ≠ 0) (hq : ∀ q ∈ qs, q ≠ 0) :
    List.zipWith (· / ·) vs (List.zipWith (· / ·) vs qs) = qs := by
  induction vs generalizing qs with
  | nil =>
    cases qs with
    | nil => rfl
    | cons q qs => simp at hlen
  | cons v vs ih =>
    cases qs with
    | nil => simp at hlen
    | cons q qs =>
      have hvq : v / (v / q) = q := by
        rw [div_div_eq_mul_div, mul_comm, mul_div_assoc,
          div_self (hv v (by simp)), mul_one]
      simp only [List.length_cons, Nat.succ.injEq] at hlen
      simp [List.zipWith, hvq,
        ih qs hlen (fun u hu => hv u (List.mem_cons_of_mem v hu))
          (fun u hu => hq u (List.mem_cons_of_mem q hu))]

/-- C9.  `easy_resample` errors on `pmin ≥ pmax`, on `pn < 2`, and on any
resample point outside the convex hull of the original domain values;
otherwise it produces the `pn` linearly or geometrically spaced points
between `pmin` and `pmax` in the chosen domain, with velocity and
uncertainty interpolated onto the new points. -/
theorem spec_c9 :
    (∀ (t : ModalTarget) (pmin pmax : ℚ) (pn : ℕ) (rt : ResType)
        (dom : Domain) (geom : ℚ → ℚ → ℕ → List ℚ),
      pmax ≤ pmin → t.easy_resample pmin pmax pn rt dom geom = none) ∧
    (∀ (t : ModalTarget) (pmin pmax : ℚ) (pn : ℕ) (rt : ResType)
        (dom : Domain) (geom : ℚ → ℚ → ℕ → List ℚ),
      pn < 2 → t.easy_resample pmin pmax pn rt dom geom = none) ∧
    (∀ (t : ModalTarget) (pmin pmax : ℚ) (pn : ℕ) (rt : ResType)
        (dom : Domain) (geom : ℚ → ℚ → ℕ → List ℚ) (lo hi : ℚ),
      listLo (t.domainValues dom) = some lo →
      listHi (t.domainValues dom) = some hi →
      (∃ q ∈ samplePoints geom rt pmin pmax pn, q < lo ∨ hi < q) →
      t.easy_resample pmin pmax pn rt dom geom = none) ∧
    (∀ (t : ModalTarget) (pmin pmax : ℚ) (pn : ℕ) (rt : ResType)
        (dom : Domain) (geom : ℚ → ℚ → ℕ → List ℚ) (lo hi : ℚ),
      pmin < pmax → 2 ≤ pn →
      listLo (t.domainValues dom) = some lo →
      listHi (t.domainValues dom) = some hi →
      (∀ q ∈ samplePoints geom rt pmin pmax pn, lo ≤ q ∧ q ≤ hi) →
      t.easy_resample pmin pmax pn rt dom geom =
        some (resampleResult t dom (samplePoints geom rt pmin pmax pn))) ∧
    (∀ (geom : ℚ → ℚ → ℕ → List ℚ) (rt : ResType) (pmin pmax : ℚ) (pn : ℕ),
      pmin ≤ pmax → 2 ≤ pn →
      (geom pmin pmax pn).length = pn →
      (∀ q ∈ geom pmin pmax pn, pmin ≤ q ∧ q ≤ pmax) →
      (samplePoints geom rt pmin pmax pn).length = pn ∧
        ∀ q ∈ samplePoints geom rt pmin pmax pn, pmin ≤ q ∧ q ≤ pmax) ∧
    (∀ (t : ModalTarget) (dom : Domain) (pts : List ℚ),
      (resampleResult t dom pts).velocity = resampledVel t dom pts ∧
      (resampleResult t dom pts).velocity.length = pts.length ∧
      (resampleResult t dom pts).velstd = resampledStd t dom pts ∧
      (resampleResult t dom pts).velstd.length = pts.length ∧
      (resampleResult t Domain.frequency pts).frequency = pts) ∧
    (∀ (t : ModalTarget) (pts : List ℚ),
      (∀ v ∈ resampledVel t Domain.wavelength pts, v ≠ 0) →
      (∀ q ∈ pts, q ≠ 0) →
      (resampleResult t Domain.wavelength pts).wavelength = pts) := by
  refine ⟨?_, ?_, ?_, ?_, ?_, ?_, ?_⟩
  · intro t pmin pmax pn rt dom geom hle
    rw [ModalTarget.easy_resample, if_neg]
    rintro ⟨h, -⟩
    exact absurd h (not_lt.mpr hle)
  · intro t pmin pmax pn rt dom geom hlt
    rw [ModalTarget.easy_resample, if_neg]
    rintro ⟨-, h⟩
    omega
  · intro t pmin pmax pn rt dom geom lo hi hLo hHi hbad
    rw [ModalTarget.easy_resample]
    by_cases hc : pmin < pmax ∧ 2 ≤ pn
    · rw [if_pos hc, hLo, hHi]
      show (if ∀ q ∈ samplePoints geom rt pmin pmax pn, lo ≤ q ∧ q ≤ hi then
        some (resampleResult t dom (samplePoints geom rt pmin pmax pn))
        else none) = none
      rw [if_neg]
      intro hall
      obtain ⟨q, hq, hout⟩ := hbad
      obtain ⟨h1, h2⟩ := hall q hq
      rcases hout with h | h <;> linarith
    · rw [if_neg hc]
  · intro t pmin pmax pn rt dom geom lo hi h1 h2 hLo hHi hall
    rw [ModalTarget.easy_resample, if_pos ⟨h1, h2⟩, hLo, hHi]
    show (if ∀ q ∈ samplePoints geom rt pmin pmax pn, lo ≤ q ∧ q ≤ hi then
      some (resampleResult t dom (samplePoints geom rt pmin pmax pn))
      else none) =
      some (resampleResult t dom (samplePoints geom rt pmin pmax pn))
    rw [if_pos hall]
  · intro geom rt pmin pmax pn hab hn hlen hmem
    cases rt with
    | linear =>
      exact ⟨linspace_length pmin pmax pn, linspace_mem pmin pmax pn hab hn⟩
    | logarithmic => exact ⟨hlen, hmem⟩
  · intro t dom pts
    refine ⟨rfl, ?_, rfl, ?_, rfl⟩ <;>
      cases dom <;> simp [resampleResult, resampledVel, resampledStd]
  · intro t pts hv hq
    show List.zipWith (· / ·) (resampledVel t Domain.wavelength pts)
      (List.zipWith (· / ·) (resampledVel t Domain.wavelength pts) pts) = pts
    exact zipWith_div_div _ pts (by simp [resampledVel]) hv hq

/-- Closed witness for C9 at the dispersion curve
`f=[1,10,100], v=[100,200,300]`: a degenerate range, a one-point request and
an out-of-hull request are rejected, a valid 5-point linear request
succeeds. -/
theorem spec_c9_witness :
    (ModalTarget.mk [1, 10, 100] [100, 200, 300] [5, 5, 5]
      [(WaveType.rayleigh, 0)]).easy_resample 5 5 5 ResType.linear
      Domain.frequency (fun _ _ _ => []) = none ∧
    (ModalTarget.mk [1, 10, 100] [100, 200, 300] [5, 5, 5]
      [(WaveType.rayleigh, 0)]).easy_resample 1 100 1 ResType.linear
      Domain.frequency (fun _ _ _ => []) = none ∧
    (ModalTarget.mk [1, 10, 100] [100, 200, 300] [5, 5, 5]
      [(WaveType.rayleigh, 0)]).easy_resample 1 200 5 ResType.linear
      Domain.frequency (fun _ _ _ => []) = none ∧
    ((ModalTarget.mk [1, 10, 100] [100, 200, 300] [5, 5, 5]
      [(WaveType.rayleigh, 0)]).easy_resample 1 100 5 ResType.linear
      Domain.frequency (fun _ _ _ => [])).isSome := by
  refine ⟨?_, ?_, ?_, ?_⟩
  · exact spec_c9.1 _ 5 5 5 ResType.linear Domain.frequency _ (le_refl 5)
  · exact spec_c9.2.1 _ 1 100 1 ResType.linear Domain.frequency _
      (by norm_num)
  · refine spec_c9.2.2.1 _ 1 200 5 ResType.linear Domain.frequency _ 1 100
      (by norm_num [listLo, ModalTarget.domainValues])
      (by norm_num [listHi, ModalTarget.domainValues]) ?_
    refine ⟨200, ?_, ?_⟩
    · show (200 : ℚ) ∈ linspace 1 200 5
      norm_num [linspace, List.range_succ]
    · right; norm_num
  · rw [spec_c9.2.2.2.1 _ 1 100 5 ResType.linear Domain.frequency
      (fun _ _ _ => []) 1 100 (by norm_num) (by norm_num)
      (by norm_num [listLo, ModalTarget.domainValues])
      (by norm_num [listHi, ModalTarget.domainValues]) ?_]
    · rfl
    · intro q hq
      have hm := linspace_mem 1 100 5 (by norm_num) (by norm_num) q hq
      exact hm

/-- The bare major-version label 2, which is not a supported version. -/
def bare2 : String := "2"

/-- The bare major-version label 3, which is not a supported version. -/
def bare3 : String := "3"

/-- C10.  The supported engine versions are exposed as the module-level list
`SUPPORTED_GEOPSY_VERSIONS`, containing exactly the two full version strings
2.10.1 and 3.4.2 (not the bare labels 2 and 3), and the serialization
methods `Parameterization.to_param` and `TargetSet.to_target` accept exactly
the versions in this list. -/
theorem spec_c10 :
    SUPPORTED_GEOPSY_VERSIONS = ["2.10.1", "3.4.2"] ∧
    (bare2 ∉ SUPPORTED_GEOPSY_VERSIONS ∧ bare3 ∉ SUPPORTED_GEOPSY_VERSIONS) ∧
    (∀ (P : Parameterization) (v : String),
      v ∉ SUPPORTED_GEOPSY_VERSIONS → P.to_param v = none) ∧
    (∀ (T : TargetSet) (v : String),
      v ∉ SUPPORTED_GEOPSY_VERSIONS → T.to_target v = none) ∧
    (∀ (P : Parameterization) (v : String),
      (P.to_param v).isSome → v ∈ SUPPORTED_GEOPSY_VERSIONS) ∧
    (∀ (T : TargetSet) (v : String),
      (T.to_target v).isSome → v ∈ SUPPORTED_GEOPSY_VERSIONS) := by
  refine ⟨rfl, ⟨by decide, by decide⟩, ?_, ?_, ?_, ?_⟩
  · intro P v hv
    rw [Parameterization.to_param, if_neg hv]
  · intro T v hv
    rw [TargetSet.to_target, if_neg hv]
  · intro P v hs
    by_cases hv : v ∈ SUPPORTED_GEOPSY_VERSIONS
    · exact hv
    · rw [Parameterization.to_param, if_neg hv] at hs
      exact absurd hs (by simp)
  · intro T v hs
    by_cases hv : v ∈ SUPPORTED_GEOPSY_VERSIONS
    · exact hv
    · rw [TargetSet.to_target, if_neg hv] at hs
      exact absurd hs (by simp)

/-- Closed witness for C10: the bare labels 2 and 3 are rejected by both
serialization methods. -/
theorem spec_c10_witness :
    (Parameterization.mk
      ⟨[1824], [1883], [2000], [2000], [false], LayType.FX⟩
      ⟨[1824], [1883], [2000], [2000], [false], LayType.FX⟩
      ⟨[1824], [1883], [2000], [2000], [false], LayType.FX⟩
      ⟨[1824], [1883], [2000], [2000], [false], LayType.FX⟩).to_param
      bare2 = none ∧
    (TargetSet.mk []).to_target bare3 = none := by
  constructor
  · exact spec_c10.2.2.1 _ bare2 (by decide)
  · exact spec_c10.2.2.2.1 _ bare3 (by decide)

end Swprepost
